import Mathlib

/-!
Shallow embedding of the Story-timeline-builder repository (Django app).
Definitions are translated from `src/timeline/views.py`, `src/timeline/models.py`
and `src/timeline/utils/ai_context.py`; theorems check the natural-language
specification against them.
-/

namespace StoryTimeline

/-! ## Python list/slicing primitives -/

/-- Python `range(start, stop, step)` for a positive step
(a zero step raises in Python; every call site uses a positive step). -/
def pyRange (start stop step : Nat) : List Nat :=
  if _h : 0 < step ∧ start < stop then
    start :: pyRange (start + step) stop step
  else []
termination_by stop - start
decreasing_by omega

/-- Python slice `l[i : i + cs]`. -/
def pySlice (l : List α) (i cs : Nat) : List α := (l.drop i).take cs

/-- Python `[l[i:i+cs] for i in range(0, len(l), cs)]`: consecutive
slices of size `cs`, as used both for relationship-event batching and for
the 12000-character fallback slicing of an imported manuscript. -/
def pySlices (l : List α) (cs : Nat) : List (List α) :=
  (pyRange 0 l.length cs).map (fun i => pySlice l i cs)

/-- `math.ceil(n / 3)` on a natural number, as in
`chunk_size = math.ceil(total_count / 3)` (views.py, `api_suggest_relationship`
and `_ensure_relationship_cache`). -/
def ceilDiv3 (n : Nat) : Nat := (n + 2) / 3

/-- The relationship-analysis batching:
`chunk_size = math.ceil(total_count / 3)` followed by
`[all_events[i:i + chunk_size] for i in range(0, total_count, chunk_size)]`. -/
def relationshipBatches (events : List α) : List (List α) :=
  pySlices events (ceilDiv3 events.length)

/-! ### Helper: a recursive characterization of `pySlices` -/

/-- Recursive chunking: repeatedly take `cs` elements. Agrees with
`pySlices` for positive `cs` (lemma `pySlices_eq_chunkRec`). -/
def chunkRec (cs : Nat) (l : List α) : List (List α) :=
  match l with
  | [] => []
  | x :: xs =>
    if _h : cs = 0 then []
    else (x :: xs).take cs :: chunkRec cs ((x :: xs).drop cs)
termination_by l.length
decreasing_by
  simp only [List.length_drop, List.length_cons]
  omega

theorem pyRange_shift (k a b step : Nat) :
    pyRange (a + k) (b + k) step = (pyRange a b step).map (· + k) := by
  by_cases h : 0 < step ∧ a < b
  · unfold pyRange
    rw [dif_pos (show 0 < step ∧ a + k < b + k by omega), dif_pos h]
    simp only [List.map_cons]
    rw [show a + k + step = a + step + k by omega,
      pyRange_shift k (a + step) b step]
  · unfold pyRange
    rw [dif_neg (show ¬(0 < step ∧ a + k < b + k) by omega),
      dif_neg h]
    simp
termination_by b - a
decreasing_by omega

theorem pySlices_eq_chunkRec_aux (cs : Nat) (hcs : 0 < cs) :
    ∀ (n : Nat) (l : List α), l.length ≤ n → pySlices l cs = chunkRec cs l := by
  intro n
  induction n with
  | zero =>
    intro l hlen
    have : l = [] := by cases l <;> simp_all
    subst this
    unfold chunkRec pySlices pyRange
    simp
  | succ n ih =>
    intro l hlen
    cases l with
    | nil =>
      unfold chunkRec pySlices pyRange
      simp
    | cons x xs =>
      rw [show chunkRec cs (x :: xs)
            = (x :: xs).take cs :: chunkRec cs ((x :: xs).drop cs) by
        rw [chunkRec, dif_neg (by omega)]]
      have hn : 0 < (x :: xs).length := by simp
      unfold pySlices
      rw [pyRange, dif_pos ⟨hcs, hn⟩]
      simp only [List.map_cons]
      have h0 : pySlice (x :: xs) 0 cs = (x :: xs).take cs := by simp [pySlice]
      rw [h0]
      by_cases hcl : cs < (x :: xs).length
      · have hr : pyRange (0 + cs) (x :: xs).length cs
            = (pyRange 0 ((x :: xs).length - cs) cs).map (· + cs) := by
          conv_lhs => rw [show (x :: xs).length = ((x :: xs).length - cs) + cs by omega]
          exact pyRange_shift cs 0 ((x :: xs).length - cs) cs
        rw [hr, List.map_map]
        have hfun : ((fun i => pySlice (x :: xs) i cs) ∘ (· + cs))
            = fun i => pySlice ((x :: xs).drop cs) i cs := by
          funext i
          simp [pySlice, List.drop_drop, Nat.add_comm]
        rw [hfun]
        have hrec := ih ((x :: xs).drop cs)
          (by simp only [List.length_drop]; simp at hlen ⊢; omega)
        rw [← hrec]
        unfold pySlices
        rw [List.length_drop]
      · have hdrop : (x :: xs).drop cs = [] := by
          apply List.drop_eq_nil_of_le
          omega
        rw [hdrop]
        rw [pyRange, dif_neg (show ¬(0 < cs ∧ 0 + cs < (x :: xs).length) by omega)]
        simp [chunkRec]

theorem pySlices_eq_chunkRec (cs : Nat) (hcs : 0 < cs) (l : List α) :
    pySlices l cs = chunkRec cs l :=
  pySlices_eq_chunkRec_aux cs hcs l.length l le_rfl

theorem chunkRec_join (cs : Nat) (hcs : 0 < cs) :
    ∀ (n : Nat) (l : List α), l.length ≤ n → (chunkRec cs l).flatten = l := by
  intro n
  induction n with
  | zero =>
    intro l hlen
    have : l = [] := by cases l <;> simp_all
    subst this
    simp [chunkRec]
  | succ n ih =>
    intro l hlen
    cases l with
    | nil => simp [chunkRec]
    | cons x xs =>
      rw [show chunkRec cs (x :: xs)
            = (x :: xs).take cs :: chunkRec cs ((x :: xs).drop cs) by
        rw [chunkRec, dif_neg (by omega)]]
      rw [List.flatten_cons]
      rw [ih ((x :: xs).drop cs)
        (by simp only [List.length_drop]; simp at hlen ⊢; omega)]
      exact List.take_append_drop cs (x :: xs)

theorem chunkRec_length_le (cs : Nat) (hcs : 0 < cs) :
    ∀ (k : Nat) (l : List α), l.length ≤ k * cs → (chunkRec cs l).length ≤ k := by
  intro k
  induction k with
  | zero =>
    intro l hlen
    have : l = [] := by cases l <;> simp_all
    subst this
    simp [chunkRec]
  | succ k ih =>
    intro l hlen
    cases l with
    | nil => simp [chunkRec]
    | cons x xs =>
      rw [show chunkRec cs (x :: xs)
            = (x :: xs).take cs :: chunkRec cs ((x :: xs).drop cs) by
        rw [chunkRec, dif_neg (by omega)]]
      rw [List.length_cons]
      have hdl : ((x :: xs).drop cs).length ≤ k * cs := by
        simp only [List.length_drop]
        rw [Nat.succ_mul] at hlen
        omega
      have := ih ((x :: xs).drop cs) hdl
      omega

theorem chunkRec_ne_nil (cs : Nat) (hcs : 0 < cs) (l : List α) (hl : l ≠ []) :
    chunkRec cs l ≠ [] := by
  cases l with
  | nil => exact absurd rfl hl
  | cons x xs =>
    rw [show chunkRec cs (x :: xs)
          = (x :: xs).take cs :: chunkRec cs ((x :: xs).drop cs) by
      rw [chunkRec, dif_neg (by omega)]]
    exact List.cons_ne_nil _ _

theorem chunkRec_mem_length_le (cs : Nat) (hcs : 0 < cs) :
    ∀ (n : Nat) (l : List α), l.length ≤ n →
      ∀ c ∈ chunkRec cs l, c.length ≤ cs := by
  intro n
  induction n with
  | zero =>
    intro l hlen c hc
    have : l = [] := by cases l <;> simp_all
    subst this
    simp [chunkRec] at hc
  | succ n ih =>
    intro l hlen c hc
    cases l with
    | nil => simp [chunkRec] at hc
    | cons x xs =>
      rw [show chunkRec cs (x :: xs)
            = (x :: xs).take cs :: chunkRec cs ((x :: xs).drop cs) by
        rw [chunkRec, dif_neg (by omega)]] at hc
      rcases List.mem_cons.mp hc with h | h
      · subst h
        simp [List.length_take]
      · exact ih ((x :: xs).drop cs)
          (by simp only [List.length_drop]; simp at hlen ⊢; omega) c h

theorem chunkRec_dropLast_length (cs : Nat) (hcs : 0 < cs) :
    ∀ (n : Nat) (l : List α), l.length ≤ n →
      ∀ c ∈ (chunkRec cs l).dropLast, c.length = cs := by
  intro n
  induction n with
  | zero =>
    intro l hlen c hc
    have : l = [] := by cases l <;> simp_all
    subst this
    simp [chunkRec] at hc
  | succ n ih =>
    intro l hlen c hc
    cases l with
    | nil => simp [chunkRec] at hc
    | cons x xs =>
      rw [show chunkRec cs (x :: xs)
            = (x :: xs).take cs :: chunkRec cs ((x :: xs).drop cs) by
        rw [chunkRec, dif_neg (by omega)]] at hc
      by_cases hd : (x :: xs).drop cs = []
      · rw [hd] at hc
        simp [chunkRec] at hc
      · have hne : chunkRec cs ((x :: xs).drop cs) ≠ [] :=
          chunkRec_ne_nil cs hcs _ hd
        rw [List.dropLast_cons_of_ne_nil hne] at hc
        rcases List.mem_cons.mp hc with h | h
        · subst h
          have hlt : cs ≤ (x :: xs).length := by
            by_contra hcon
            exact hd (List.drop_eq_nil_of_le (by omega))
          simp only [List.length_take, List.length_cons] at hlt ⊢
          omega
        · exact ih ((x :: xs).drop cs)
            (by simp only [List.length_drop]; simp at hlen ⊢; omega) c h

/-- C1 (amended): for a non-empty list of shared events, the
relationship-analysis batching produces between one and three batches,
each an order-preserving contiguous slice, whose concatenation is the
original ordered list. -/
theorem relationship_batching_spec (events : List α) (h : events ≠ []) :
    1 ≤ (relationshipBatches events).length ∧
    (relationshipBatches events).length ≤ 3 ∧
    (relationshipBatches events).flatten = events ∧
    ∀ b ∈ relationshipBatches events,
      ∃ i, b = pySlice events i (ceilDiv3 events.length) := by
  have hn : 0 < events.length := List.length_pos.mpr h
  have hcs : 0 < ceilDiv3 events.length := by
    unfold ceilDiv3
    omega
  have heq : relationshipBatches events
      = chunkRec (ceilDiv3 events.length) events :=
    pySlices_eq_chunkRec _ hcs events
  refine ⟨?_, ?_, ?_, ?_⟩
  · rw [heq]
    have := chunkRec_ne_nil _ hcs events h
    exact List.length_pos.mpr this
  · rw [heq]
    apply chunkRec_length_le _ hcs 3 events
    unfold ceilDiv3
    omega
  · rw [heq]
    exact chunkRec_join _ hcs events.length events le_rfl
  · intro b hb
    unfold relationshipBatches pySlices at hb
    rcases List.mem_map.mp hb with ⟨i, _, hi⟩
    exact ⟨i, hi.symm⟩

/-- C1 witness: a concrete non-empty event list satisfying the batching
theorem's conclusion. -/
theorem relationship_batching_spec_witness :
    1 ≤ (relationshipBatches ([10, 20, 30, 40] : List Nat)).length ∧
    (relationshipBatches ([10, 20, 30, 40] : List Nat)).length ≤ 3 ∧
    (relationshipBatches ([10, 20, 30, 40] : List Nat)).flatten = [10, 20, 30, 40] ∧
    ∀ b ∈ relationshipBatches ([10, 20, 30, 40] : List Nat),
      ∃ i, b = pySlice [10, 20, 30, 40] i (ceilDiv3 ([10, 20, 30, 40] : List Nat).length) :=
  relationship_batching_spec [10, 20, 30, 40] (by simp)

/-- C1 counterexample: the claim says the batching always yields exactly
three batches, but four events give `chunk_size = 2` and only two batches. -/
theorem relationship_batching_not_always_three :
    ([10, 20, 30, 40] : List Nat) ≠ [] ∧
    (relationshipBatches ([10, 20, 30, 40] : List Nat)).length ≠ 3 := by
  have h1 : pyRange 0 4 2 = [0, 0 + 2] := by
    rw [pyRange, dif_pos (by norm_num), pyRange, dif_pos (by norm_num),
      pyRange, dif_neg (by norm_num)]
  constructor
  · simp
  · show ((pyRange 0 4 2).map
      (fun i => pySlice ([10, 20, 30, 40] : List Nat) i 2)).length ≠ 3
    rw [h1]
    simp

/-! ## C10: `Book.progress_percentage` (models.py) -/

/-- `Book.progress_percentage`: `if self.word_count_target == 0: return 0;
return min(100, (self.current_word_count / self.word_count_target) * 100)`,
with Python's division modelled exactly over `ℚ`. -/
def progress_percentage (word_count_target current_word_count : Nat) : ℚ :=
  if word_count_target = 0 then 0
  else min 100 ((current_word_count : ℚ) / (word_count_target : ℚ) * 100)

/-- C10: `progress_percentage` is total and bounded: a zero target returns 0
without dividing, a positive target returns `min(100, current/target*100)`,
and the result never exceeds 100. -/
theorem progress_percentage_total_bounded (target current : Nat) :
    (target = 0 → progress_percentage target current = 0) ∧
    (target ≠ 0 → progress_percentage target current
      = min 100 ((current : ℚ) / (target : ℚ) * 100)) ∧
    progress_percentage target current ≤ 100 := by
  refine ⟨fun h => by simp [progress_percentage, h],
          fun h => by simp [progress_percentage, h], ?_⟩
  unfold progress_percentage
  split
  · norm_num
  · exact min_le_left _ _

/-- C10 witness: the theorem at concrete inputs. -/
theorem progress_percentage_total_bounded_witness :
    progress_percentage 0 7 = 0 ∧ progress_percentage 160000 80000 ≤ 100 :=
  ⟨(progress_percentage_total_bounded 0 7).1 rfl,
   (progress_percentage_total_bounded 160000 80000).2.2⟩

/-! ## C9: tension normalization in the import event loop (views.py) -/

/-- The fragment of Python/JSON scalar values relevant to the tension field.
Python `bool` is a subclass of `int`, so `isinstance(tension, int)` holds for
booleans with `True == 1`, `False == 0`; floats, strings, lists, dicts and
`null` all fail the `isinstance` check and are collapsed into `other`. -/
inductive PyVal where
  | int (n : Int)
  | bool (b : Bool)
  | str (s : String)
  | other
deriving DecidableEq, Repr

/-- Python `isinstance(v, int)`. -/
def pyIsInt : PyVal → Bool
  | .int _ => true
  | .bool _ => true
  | _ => false

/-- The integer value of a `PyVal` passing `isinstance(v, int)`. -/
def pyIntVal : PyVal → Int
  | .int n => n
  | .bool b => if b then 1 else 0
  | _ => 0

/-- The tension normalization in `run_background_book_import`:
`tension = event_info.get('tension', 5)`, then
`if not isinstance(tension, int) or tension < 1: tension = 5`, then
`if tension > 10: tension = 10`. `none` models a missing key. -/
def normalizeTension (raw : Option PyVal) : Int :=
  let t := raw.getD (.int 5)
  let t : Int := if pyIsInt t = false ∨ pyIntVal t < 1 then 5 else pyIntVal t
  if t > 10 then 10 else t

/-- The fields of an `Event` row written by the import pipeline that C9 is
about: `tension_level=tension` after normalization. -/
structure ImportedEvent where
  title : String
  tension_level : Int
deriving DecidableEq, Repr

/-- `Event.objects.create(... tension_level=tension ...)` in the import
event loop, restricted to the fields C9 mentions. -/
def mkImportedEvent (title : String) (rawTension : Option PyVal) : ImportedEvent :=
  { title := title, tension_level := normalizeTension rawTension }

/-- C9: every event created by the import pipeline has `tension_level` in
1..10; a non-integer or below-1 tension is replaced by 5, and one above 10
is clamped to 10. -/
theorem imported_event_tension_range (title : String) (raw : Option PyVal) :
    1 ≤ (mkImportedEvent title raw).tension_level ∧
    (mkImportedEvent title raw).tension_level ≤ 10 ∧
    (∀ v, raw = some v → pyIsInt v = false →
      (mkImportedEvent title raw).tension_level = 5) ∧
    (∀ v, raw = some v → pyIsInt v = true → pyIntVal v < 1 →
      (mkImportedEvent title raw).tension_level = 5) ∧
    (∀ v, raw = some v → pyIsInt v = true → pyIntVal v > 10 →
      (mkImportedEvent title raw).tension_level = 10) := by
  unfold mkImportedEvent normalizeTension
  refine ⟨?_, ?_, ?_, ?_, ?_⟩
  · cases raw with
    | none => simp [pyIsInt, pyIntVal]
    | some v => simp only [Option.getD_some]; split_ifs <;> omega
  · cases raw with
    | none => simp [pyIsInt, pyIntVal]
    | some v => simp only [Option.getD_some]; split_ifs <;> omega
  · intro v hv hint
    subst hv
    simp only [Option.getD_some]
    rw [if_pos (Or.inl hint)]
    norm_num
  · intro v hv _ hlt
    subst hv
    simp only [Option.getD_some]
    rw [if_pos (Or.inr hlt)]
    norm_num
  · intro v hv hint hgt
    subst hv
    simp only [Option.getD_some]
    rw [show (if pyIsInt v = false ∨ pyIntVal v < 1 then (5 : Int) else pyIntVal v)
          = pyIntVal v from if_neg (by simp [hint]; omega)]
    exact if_pos hgt

/-- C9 witness: the theorem at concrete inputs (an out-of-range 15 clamps
to 10; membership in 1..10 holds). -/
theorem imported_event_tension_range_witness :
    (mkImportedEvent "duel" (some (.int 15))).tension_level = 10 ∧
    1 ≤ (mkImportedEvent "duel" (some (.int 15))).tension_level :=
  ⟨(imported_event_tension_range "duel" (some (.int 15))).2.2.2.2
      (.int 15) rfl rfl (by norm_num [pyIntVal]),
   (imported_event_tension_range "duel" (some (.int 15))).1⟩

/-! ## C3: `_call_ai_json` retry loop (views.py) -/

/-- Observable outcome of `_call_ai_json`: the returned value, the number
of AI attempts actually made, and the list of back-off sleeps performed. -/
structure AiCallResult (J : Type) where
  value : Option J
  attempts : Nat
  sleeps : List Nat
deriving DecidableEq, Repr

/-- The `for attempt in range(max_retries)` loop of `_call_ai_json`,
started at a given attempt index. `oracle attempt = some j` models an
attempt whose AI call and `json.loads` succeed with `j`; `none` models an
exception. On failure before the last allowed attempt the code does
`time.sleep(2 ** attempt)` and continues; on the last it returns `None`. -/
def callAiLoop (oracle : Nat → Option J) (max_retries attempt : Nat) :
    AiCallResult J :=
  if _h : attempt < max_retries then
    match oracle attempt with
    | some j => { value := some j, attempts := 1, sleeps := [] }
    | none =>
      if attempt < max_retries - 1 then
        { value := (callAiLoop oracle max_retries (attempt + 1)).value,
          attempts := (callAiLoop oracle max_retries (attempt + 1)).attempts + 1,
          sleeps := 2 ^ attempt
            :: (callAiLoop oracle max_retries (attempt + 1)).sleeps }
      else { value := none, attempts := 1, sleeps := [] }
  else { value := none, attempts := 0, sleeps := [] }
termination_by max_retries - attempt
decreasing_by omega

/-- `_call_ai_json`: returns `None` immediately when neither
`DEEPSEEK_API_KEY` nor `GEMINI_API_KEY` is configured, else runs the retry
loop from attempt 0 (`max_retries` defaults to 3 at the call sites). -/
def call_ai_json (hasApiKey : Bool) (oracle : Nat → Option J)
    (max_retries : Nat) : AiCallResult J :=
  if hasApiKey = false then { value := none, attempts := 0, sleeps := [] }
  else callAiLoop oracle max_retries 0


theorem callAiLoop_spec (oracle : Nat → Option J) (m a : Nat) :
    (callAiLoop oracle m a).attempts ≤ m - a ∧
    ((∀ i, a ≤ i → i < m → oracle i = none) →
      (callAiLoop oracle m a).value = none) ∧
    (callAiLoop oracle m a).sleeps
      = (List.range (callAiLoop oracle m a).sleeps.length).map
          (fun i => 2 ^ (a + i)) ∧
    ((callAiLoop oracle m a).sleeps = [] ∨
      a + (callAiLoop oracle m a).sleeps.length ≤ m - 1) := by
  rw [callAiLoop]
  by_cases h : a < m
  · rw [dif_pos h]
    cases hor : oracle a with
    | some j =>
      refine ⟨by show 1 ≤ m - a; omega, ?_, by simp, Or.inl rfl⟩
      intro hall
      exact absurd (hor.symm.trans (hall a le_rfl h)) (by simp)
    | none =>
      by_cases h2 : a < m - 1
      · rw [if_pos h2]
        obtain ⟨ih1, ih2, ih3, ih4⟩ := callAiLoop_spec oracle m (a + 1)
        refine ⟨?_, ?_, ?_, ?_⟩
        · show (callAiLoop oracle m (a + 1)).attempts + 1 ≤ m - a
          omega
        · intro hall
          show (callAiLoop oracle m (a + 1)).value = none
          exact ih2 (fun i hi1 hi2 => hall i (by omega) hi2)
        · show (2 : Nat) ^ a :: (callAiLoop oracle m (a + 1)).sleeps
            = (List.range
                ((2 : Nat) ^ a :: (callAiLoop oracle m (a + 1)).sleeps).length).map
                (fun i => 2 ^ (a + i))
          rw [List.length_cons, List.range_succ_eq_map, List.map_cons,
            List.map_map]
          congr 1
          conv_lhs => rw [ih3]
          apply List.map_congr_left
          intro i _
          simp only [Function.comp_apply, Nat.succ_eq_add_one]
          congr 1
          omega
        · right
          show a + ((2 : Nat) ^ a
              :: (callAiLoop oracle m (a + 1)).sleeps).length ≤ m - 1
          rw [List.length_cons]
          rcases ih4 with he | hb
          · rw [he]
            simp only [List.length_nil]
            omega
          · omega
      · rw [if_neg h2]
        refine ⟨by show 1 ≤ m - a; omega, by intro _; rfl, by simp, Or.inl rfl⟩
  · rw [dif_neg h]
    simp
termination_by m - a
decreasing_by omega

/-- C3: for every prompt, `_call_ai_json` makes at most `max_retries`
attempts (default 3 at the call sites); after every failed attempt except
the last it sleeps `2 ^ attempt` seconds, so the performed sleeps are
exactly the exponentially increasing list `[2^0, 2^1, ...]`; and when no
API key is configured, or every attempt fails, it returns `None` instead
of raising. -/
theorem call_ai_json_spec (hasKey : Bool) (oracle : Nat → Option J) (m : Nat) :
    (call_ai_json hasKey oracle m).attempts ≤ m ∧
    (hasKey = false → (call_ai_json hasKey oracle m).value = none) ∧
    ((∀ i, i < m → oracle i = none) →
      (call_ai_json hasKey oracle m).value = none) ∧
    (call_ai_json hasKey oracle m).sleeps
      = (List.range (call_ai_json hasKey oracle m).sleeps.length).map
          (fun i => 2 ^ i) ∧
    (call_ai_json hasKey oracle m).sleeps.length ≤ m - 1 := by
  unfold call_ai_json
  cases hasKey with
  | false => simp
  | true =>
    rw [if_neg (by simp)]
    obtain ⟨h1, h2, h3, h4⟩ := callAiLoop_spec oracle m 0
    refine ⟨by omega, by intro hcon; exact absurd hcon (by simp), ?_, ?_, ?_⟩
    · intro hall
      exact h2 (fun i _ hi => hall i hi)
    · conv_lhs => rw [h3]
      apply List.map_congr_left
      intro i _
      rw [Nat.zero_add]
    · rcases h4 with he | hb
      · rw [he]
        simp
      · omega

/-- C3 witness: with a key and an always-failing oracle at the default
`max_retries = 3`, the result is `None`; with no key it is `None` at once. -/
theorem call_ai_json_spec_witness :
    (call_ai_json false (fun _ => (none : Option Nat)) 3).value = none ∧
    (call_ai_json true (fun _ => (none : Option Nat)) 3).value = none :=
  ⟨(call_ai_json_spec false (fun _ => (none : Option Nat)) 3).2.1 rfl,
   (call_ai_json_spec true (fun _ => (none : Option Nat)) 3).2.2.1
     (fun _ _ => rfl)⟩

/-! ## C2: mirror step of `_perform_relationship_analysis` (views.py) -/

/-- The descriptive fields of a `CharacterRelationship` record touched by
the mirror step. The deep-insight fields (`shared_secret` … `predictability`)
are read and written by views.py exactly like the declared model fields. -/
structure RelRecord where
  relationship_type : String
  description : String
  strength : Int
  trust_level : Int
  power_dynamic : String
  relationship_status : String
  visibility : String
  conflict_source : String
  character_a_wants : String
  character_b_wants : String
  evolution : String
  shared_secret : String
  first_impression : String
  vulnerability : String
  major_shared_moments : String
  predictability : Int
deriving DecidableEq, Repr

/-- The AI synthesis response as a partial JSON object:
`none` models a missing key, so `ai_response.get(k, d)` is `getD`. -/
structure AiRelResponse where
  rtype : Option String
  description : Option String
  strength : Option Int
  trust_level : Option Int
  power_dynamic : Option String
  relationship_status : Option String
  visibility : Option String
  conflict_source : Option String
  character_a_wants : Option String
  character_b_wants : Option String
  evolution : Option String
  shared_secret : Option String
  first_impression : Option String
  vulnerability : Option String
  major_shared_moments : Option String
  predictability : Option Int
deriving DecidableEq, Repr

/-- `ai_strength = ai_response.get('strength', 5)`. -/
def aiStrength (ai : AiRelResponse) : Int := ai.strength.getD 5

/-- The overwrite block guarded by
`if ai_strength >= rel.strength or created:` — every descriptive field is
set to `ai_response.get(key, rel.key)`, and `strength` to `ai_strength`. -/
def applyAiOverwrite (rel : RelRecord) (ai : AiRelResponse) : RelRecord :=
  { relationship_type := ai.rtype.getD rel.relationship_type
    description := ai.description.getD rel.description
    strength := aiStrength ai
    trust_level := ai.trust_level.getD rel.trust_level
    power_dynamic := ai.power_dynamic.getD rel.power_dynamic
    relationship_status := ai.relationship_status.getD rel.relationship_status
    visibility := ai.visibility.getD rel.visibility
    conflict_source := ai.conflict_source.getD rel.conflict_source
    character_a_wants := ai.character_a_wants.getD rel.character_a_wants
    character_b_wants := ai.character_b_wants.getD rel.character_b_wants
    evolution := ai.evolution.getD rel.evolution
    shared_secret := ai.shared_secret.getD rel.shared_secret
    first_impression := ai.first_impression.getD rel.first_impression
    vulnerability := ai.vulnerability.getD rel.vulnerability
    major_shared_moments := ai.major_shared_moments.getD rel.major_shared_moments
    predictability := ai.predictability.getD rel.predictability }

/-- The record produced by
`get_or_create(..., defaults={'relationship_type': ai_response.get('type', 'neutral')})`
when no record exists: model-field defaults from models.py
(strength 5, trust_level 5, 'balanced', 'active', 'public', blank text). -/
def createdRelRecord (ai : AiRelResponse) : RelRecord :=
  { relationship_type := ai.rtype.getD "neutral"
    description := ""
    strength := 5
    trust_level := 5
    power_dynamic := "balanced"
    relationship_status := "active"
    visibility := "public"
    conflict_source := ""
    character_a_wants := ""
    character_b_wants := ""
    evolution := ""
    shared_secret := ""
    first_impression := ""
    vulnerability := ""
    major_shared_moments := ""
    predictability := 5 }

/-- The mirror step: fetch-or-create the permanent record, then overwrite
exactly when `ai_strength >= rel.strength or created`. -/
def mirrorRelationship (existing : Option RelRecord) (ai : AiRelResponse) :
    RelRecord :=
  match existing with
  | some rel =>
    if aiStrength ai ≥ rel.strength then applyAiOverwrite rel ai else rel
  | none => applyAiOverwrite (createdRelRecord ai) ai

/-- C2: when the permanent record already exists, its descriptive fields
are overwritten exactly when the incoming strength is ≥ the existing
strength; when the incoming strength is strictly smaller, the record is
returned completely unchanged. -/
theorem mirror_overwrite_policy (rel : RelRecord) (ai : AiRelResponse) :
    (aiStrength ai < rel.strength → mirrorRelationship (some rel) ai = rel) ∧
    (aiStrength ai ≥ rel.strength →
      mirrorRelationship (some rel) ai = applyAiOverwrite rel ai ∧
      (mirrorRelationship (some rel) ai).strength = aiStrength ai) := by
  constructor
  · intro hlt
    simp only [mirrorRelationship]
    rw [if_neg (by omega)]
  · intro hge
    simp only [mirrorRelationship]
    rw [if_pos hge]
    exact ⟨rfl, rfl⟩

/-- C2 witness: a concrete existing record of strength 7 against an AI
response of strength 2 is left byte-for-byte unchanged. -/
theorem mirror_overwrite_policy_witness :
    mirrorRelationship
      (some { relationship_type := "ally", description := "old"
              strength := 7, trust_level := 6, power_dynamic := "balanced"
              relationship_status := "active", visibility := "public"
              conflict_source := "c", character_a_wants := "x"
              character_b_wants := "y", evolution := "e", shared_secret := "s"
              first_impression := "f", vulnerability := "v"
              major_shared_moments := "m", predictability := 5 })
      { rtype := some "enemy", description := some "new"
        strength := some 2, trust_level := some 1, power_dynamic := none
        relationship_status := none, visibility := none
        conflict_source := none, character_a_wants := none
        character_b_wants := none, evolution := none, shared_secret := none
        first_impression := none, vulnerability := none
        major_shared_moments := none, predictability := none }
    = { relationship_type := "ally", description := "old"
        strength := 7, trust_level := 6, power_dynamic := "balanced"
        relationship_status := "active", visibility := "public"
        conflict_source := "c", character_a_wants := "x"
        character_b_wants := "y", evolution := "e", shared_secret := "s"
        first_impression := "f", vulnerability := "v"
        major_shared_moments := "m", predictability := 5 } :=
  (mirror_overwrite_policy _ _).1 (by norm_num [aiStrength])

/-! ## C8: `ContextResolver.scan_text` (utils/ai_context.py) -/

/-- Python `str.lower()` (ASCII model), character by character. -/
def pyLower (s : String) : String := ⟨s.toList.map Char.toLower⟩

/-- Python `str.strip()` on a character list. -/
def pyStripL (l : List Char) : List Char :=
  ((l.dropWhile Char.isWhitespace).reverse.dropWhile Char.isWhitespace).reverse

/-- Python `str.strip()`. -/
def pyStrip (s : String) : String := ⟨pyStripL s.toList⟩

/-- A regex word character (`\w` over ASCII): letter, digit or underscore. -/
def isWordChar (c : Char) : Bool := c.isAlphanum || c = '_'

/-- Wordness of an optional character; out-of-range counts as non-word. -/
def wordOpt : Option Char → Bool
  | none => false
  | some c => isWordChar c

/-- Python regex `\b` at position `i` of `text`: exactly one of the
characters around the position is a word character. -/
def boundaryAt (text : List Char) (i : Nat) : Bool :=
  wordOpt (if i = 0 then none else text[i - 1]?) != wordOpt text[i]?

/-- `re.search(r'\b' + re.escape(key) + r'\b', text)` matching at start
position `i`: the literal key occurs at `i` with word boundaries on both
sides. -/
def wholeWordAt (key text : List Char) (i : Nat) : Bool :=
  decide ((text.drop i).take key.length = key) && boundaryAt text i
    && boundaryAt text (i + key.length)

/-- `re.search(r'\b' + re.escape(key) + r'\b', text) is not None`. -/
def wholeWordOccurs (key text : List Char) : Bool :=
  (List.range (text.length + 1)).any (fun i => wholeWordAt key text i)

/-- An object the resolver can return: a character or a world entry. -/
inductive ScanObj where
  | char (id : Nat)
  | world (id : Nat)
deriving DecidableEq, Repr

/-- Python dict assignment `m[k] = v` (last write wins; key kept once). -/
def dset (m : List (String × α)) (k : String) (v : α) : List (String × α) :=
  (m.filter (fun p => p.1 ≠ k)) ++ [(k, v)]

/-- Python dict lookup `m.get(k)`. -/
def dlookup (m : List (String × α)) (k : String) : Option α :=
  (m.find? (fun p => p.1 = k)).map (fun p => p.2)

/-- Python no-argument `str.split()`: split on whitespace runs. -/
def pySplitWS (s : String) : List String :=
  (s.split Char.isWhitespace).filter (fun p => p ≠ "")

/-- Python `str.split(',')` on a character list: comma-separated pieces,
empty pieces kept. -/
def splitCommaL (l : List Char) : List (List Char) :=
  match l with
  | [] => [[]]
  | c :: rest =>
    let r := splitCommaL rest
    if c = ',' then [] :: r
    else match r with
      | [] => [[c]]
      | h :: t => (c :: h) :: t

/-- Python `str.split(',')`. -/
def pySplitComma (s : String) : List String :=
  (splitCommaL s.toList).map (fun l => ⟨l⟩)

/-- Code-point lexicographic order on character lists (Python `<` on
strings, ASCII model). -/
def lexLe (a b : List Char) : Bool :=
  match a, b with
  | [], _ => true
  | _ :: _, [] => false
  | x :: xs, y :: ys =>
    if x.toNat < y.toNat then true
    else if y.toNat < x.toNat then false
    else lexLe xs ys

/-- Python `<=` on strings. -/
def strLe (a b : String) : Bool := lexLe a.toList b.toList

/-- Python `sorted(set(l))`: the distinct elements in ascending order. -/
def sortDedup (l : List String) : List String :=
  (l.dedup).insertionSort (fun a b => strLe a b = true)

/-- The fields of a `Character` read by `_build_character_map`. -/
structure ResolvedChar where
  id : Nat
  name : String
  nickname : String
  aliases : String
deriving DecidableEq, Repr

/-- `ContextResolver._build_character_map`: primary name, auto-indexed
first name of a multi-word name (only if not already a key), comma-split
stripped aliases, and nickname, all lower-cased. -/
def buildCharacterMap (chars : List ResolvedChar) : List (String × ScanObj) :=
  chars.foldl (fun m char =>
    let m := dset m (pyLower char.name) (.char char.id)
    let name_parts := pySplitWS char.name
    let m :=
      if name_parts.length > 1 then
        let first_name := pyLower (name_parts.headD "")
        if dlookup m first_name = none then dset m first_name (.char char.id)
        else m
      else m
    let m :=
      if char.aliases ≠ "" then
        (pySplitComma char.aliases).foldl (fun m al =>
          let a := pyLower (pyStrip al)
          if a ≠ "" then dset m a (.char char.id) else m) m
      else m
    if char.nickname ≠ "" then dset m (pyLower char.nickname) (.char char.id)
    else m) []

/-- `ContextResolver._build_world_map`: lower-cased titles. -/
def buildWorldMap (entries : List (Nat × String)) : List (String × ScanObj) :=
  entries.foldl (fun m e => dset m (pyLower e.2) (.world e.1)) []

/-- `found_objects.add(obj)` on an insertion-ordered set. -/
def setAdd (acc : List ScanObj) (o : ScanObj) : List ScanObj :=
  if o ∈ acc then acc else acc ++ [o]

/-- One scanning pass over a map's items:
`if re.search(r'\b' + re.escape(name) + r'\b', text_lower): found_objects.add(obj)`. -/
def scanPass (m : List (String × ScanObj)) (tl : List Char)
    (acc : List ScanObj) : List ScanObj :=
  m.foldl (fun acc p =>
    if wholeWordOccurs p.1.toList tl then setAdd acc p.2 else acc) acc

/-- `ContextResolver.scan_text`: `[]` for `None` or empty text, else the
set of character-map then world-map objects whose key occurs whole-word in
the lower-cased text. -/
def scan_text (charMap worldMap : List (String × ScanObj))
    (text : Option String) : List ScanObj :=
  match text with
  | none => []
  | some t =>
    if t = "" then []
    else
      let text_lower := (pyLower t).toList
      scanPass worldMap text_lower (scanPass charMap text_lower [])

theorem setAdd_mem (acc : List ScanObj) (o obj : ScanObj) :
    obj ∈ setAdd acc o ↔ obj ∈ acc ∨ obj = o := by
  unfold setAdd
  split
  · constructor
    · exact Or.inl
    · rintro (h | rfl)
      · exact h
      · assumption
  · simp [List.mem_append]

theorem scanPass_mem (m : List (String × ScanObj)) (tl : List Char) :
    ∀ (acc : List ScanObj) (obj : ScanObj),
      obj ∈ scanPass m tl acc ↔
        obj ∈ acc ∨ ∃ k, (k, obj) ∈ m ∧ wholeWordOccurs k.toList tl = true := by
  induction m with
  | nil => simp [scanPass]
  | cons p ps ih =>
    obtain ⟨pk, pv⟩ := p
    intro acc obj
    unfold scanPass at ih ⊢
    rw [List.foldl_cons]
    by_cases hw : wholeWordOccurs pk.toList tl = true
    · rw [if_pos hw, ih]
      rw [setAdd_mem]
      constructor
      · rintro ((h | rfl) | ⟨k, hk, hocc⟩)
        · exact Or.inl h
        · exact Or.inr ⟨pk, by simp, hw⟩
        · exact Or.inr ⟨k, List.mem_cons_of_mem _ hk, hocc⟩
      · rintro (h | ⟨k, hk, hocc⟩)
        · exact Or.inl (Or.inl h)
        · rcases List.mem_cons.mp hk with heq | hmem
          · simp only [Prod.mk.injEq] at heq
            exact Or.inl (Or.inr heq.2)
          · exact Or.inr ⟨k, hmem, hocc⟩
    · rw [if_neg hw, ih]
      constructor
      · rintro (h | ⟨k, hk, hocc⟩)
        · exact Or.inl h
        · exact Or.inr ⟨k, List.mem_cons_of_mem _ hk, hocc⟩
      · rintro (h | ⟨k, hk, hocc⟩)
        · exact Or.inl h
        · rcases List.mem_cons.mp hk with heq | hmem
          · simp only [Prod.mk.injEq] at heq
            rw [heq.1] at hocc
            exact absurd hocc hw
          · exact Or.inr ⟨k, hmem, hocc⟩

theorem wholeWordOccurs_nil (key : List Char) :
    wholeWordOccurs key [] = false := by
  cases key <;> rfl

/-- C8: `scan_text` returns `[]` for `None` or empty input, and for every
text an object is in the result iff one of its registered lower-cased keys
occurs as a whole word (regex `\b` boundaries) in the lower-cased text —
so a key occurring only inside a longer word is never matched. -/
theorem scan_text_spec (chars : List ResolvedChar)
    (entries : List (Nat × String)) :
    scan_text (buildCharacterMap chars) (buildWorldMap entries) none = [] ∧
    scan_text (buildCharacterMap chars) (buildWorldMap entries) (some "") = [] ∧
    ∀ (t : String) (obj : ScanObj),
      obj ∈ scan_text (buildCharacterMap chars) (buildWorldMap entries)
          (some t) ↔
        ∃ k, ((k, obj) ∈ buildCharacterMap chars ∨
              (k, obj) ∈ buildWorldMap entries) ∧
          wholeWordOccurs k.toList ((pyLower t).toList) = true := by
  refine ⟨rfl, rfl, ?_⟩
  intro t obj
  rw [show scan_text (buildCharacterMap chars) (buildWorldMap entries) (some t)
        = if t = "" then []
          else scanPass (buildWorldMap entries) ((pyLower t).toList)
            (scanPass (buildCharacterMap chars) ((pyLower t).toList) [])
      from rfl]
  by_cases ht : t = ""
  · rw [if_pos ht]
    subst ht
    simp only [List.not_mem_nil, false_iff, not_exists]
    rintro k ⟨_, hocc⟩
    rw [show (pyLower "").toList = [] from rfl, wholeWordOccurs_nil] at hocc
    exact absurd hocc (by simp)
  · rw [if_neg ht]
    rw [scanPass_mem, scanPass_mem]
    simp only [List.not_mem_nil, false_or]
    constructor
    · rintro (⟨k, hk, hocc⟩ | ⟨k, hk, hocc⟩)
      · exact ⟨k, Or.inl hk, hocc⟩
      · exact ⟨k, Or.inr hk, hocc⟩
    · rintro ⟨k, hk | hk, hocc⟩
      · exact Or.inl ⟨k, hk, hocc⟩
      · exact Or.inr ⟨k, hk, hocc⟩

/-! ## C5: manuscript chunking in `run_background_book_import` (views.py) -/

/-- Python slice `l[s:e]`. -/
def pySliceSE (l : List α) (s e : Nat) : List α := (l.take e).drop s

/-- `end = chapters_found[i+1].start() if i+1 < len(chapters_found) else
len(content)`: the end offset of the span beginning at the current match. -/
def headingEnd (content : List Char) : List Nat → Nat
  | [] => content.length
  | s2 :: _ => s2

/-- The chapter-splitting loop: for each regex match start, the span up to
the next match start (or the end of the text), stripped, is kept when its
length exceeds 100 characters. `starts` are the match start offsets of
`chapter_regex.finditer(content)` in increasing order. -/
def headingChunks (content : List Char) : List Nat → List (List Char)
  | [] => []
  | s :: rest =>
    if (pyStripL (pySliceSE content s (headingEnd content rest))).length > 100
    then pyStripL (pySliceSE content s (headingEnd content rest))
          :: headingChunks content rest
    else headingChunks content rest

/-- The chunker: regex heading chunks, falling back to consecutive
12000-character slices when `not chunks or len(chunks) < 2`. -/
def importChunks (content : List Char) (starts : List Nat) : List (List Char) :=
  if headingChunks content starts = [] ∨ (headingChunks content starts).length < 2
  then pySlices content 12000
  else headingChunks content starts

theorem headingChunks_long (content : List Char) (starts : List Nat) :
    ∀ c ∈ headingChunks content starts, 100 < c.length := by
  induction starts with
  | nil => simp [headingChunks]
  | cons s rest ih =>
    intro c hc
    unfold headingChunks at hc
    by_cases hlen :
        (pyStripL (pySliceSE content s (headingEnd content rest))).length > 100
    · rw [if_pos hlen] at hc
      rcases List.mem_cons.mp hc with rfl | hmem
      · exact hlen
      · exact ih c hmem
    · rw [if_neg hlen] at hc
      exact ih c hc

/-- C5: the import chunker keeps exactly the inter-heading spans longer
than 100 characters after stripping; when fewer than two such chunks
result it falls back to consecutive 12000-character slices (all of length
≤ 12000, every slice except possibly the last exactly 12000) whose
concatenation is the whole input text; with two or more heading chunks it
returns them unchanged. -/
theorem import_chunker_spec (content : List Char) (starts : List Nat) :
    (∀ c ∈ headingChunks content starts, 100 < c.length) ∧
    ((headingChunks content starts).length < 2 →
      importChunks content starts = pySlices content 12000 ∧
      (importChunks content starts).flatten = content ∧
      (∀ c ∈ importChunks content starts, c.length ≤ 12000) ∧
      (∀ c ∈ (importChunks content starts).dropLast, c.length = 12000)) ∧
    (2 ≤ (headingChunks content starts).length →
      importChunks content starts = headingChunks content starts) := by
  refine ⟨headingChunks_long content starts, ?_, ?_⟩
  · intro hlt
    have heq : importChunks content starts = pySlices content 12000 := by
      unfold importChunks
      rw [if_pos (Or.inr hlt)]
    have hck : pySlices content 12000 = chunkRec 12000 content :=
      pySlices_eq_chunkRec 12000 (by norm_num) content
    refine ⟨heq, ?_, ?_, ?_⟩
    · rw [heq, hck]
      exact chunkRec_join 12000 (by norm_num) content.length content le_rfl
    · rw [heq, hck]
      exact chunkRec_mem_length_le 12000 (by norm_num) content.length content
        le_rfl
    · rw [heq, hck]
      exact chunkRec_dropLast_length 12000 (by norm_num) content.length content
        le_rfl
  · intro hge
    unfold importChunks
    rw [if_neg (by
      push_neg
      refine ⟨?_, by omega⟩
      intro hnil
      rw [hnil] at hge
      simp at hge)]

/-- C5 witness: a short text with no heading matches falls back to fixed
slicing that reassembles the input. -/
theorem import_chunker_spec_witness :
    importChunks ('a' :: ['b']) [] = pySlices ('a' :: ['b']) 12000 ∧
    (importChunks ('a' :: ['b']) []).flatten = 'a' :: ['b'] :=
  ⟨((import_chunker_spec ('a' :: ['b']) []).2.1 (by decide)).1,
   ((import_chunker_spec ('a' :: ['b']) []).2.1 (by decide)).2.1⟩

/-! ## C4: failure policy of `run_background_book_import` (views.py) -/

/-- Outcome of one chunk batch inside the `for i in range(0, len(chunks),
batch_size)` loop: `ok` writes chapter/event rows, `noData` is
`analyze_book_content_batch_with_ai` returning `None`
(`skipped_batches += 1; continue`), `error` is an exception caught by the
per-batch `except` (`skipped_batches += 1; continue`). -/
inductive BatchResult where
  | ok (chapters : List Nat) (events : List Nat)
  | noData
  | error
deriving DecidableEq, Repr

/-- The book-and-run state the import thread mutates: the book's `status`
and `import_progress` fields, the rows written so far, and the
`skipped_batches` counter. Transient per-batch progress/message updates,
overwritten on termination, are elided. -/
structure ImportState where
  status : String
  import_progress : Nat
  characters : List Nat
  chapters : List Nat
  events : List Nat
  skipped_batches : Nat
deriving DecidableEq, Repr

/-- One iteration of the batch loop. -/
def processBatch (st : ImportState) (b : BatchResult) : ImportState :=
  match b with
  | .ok cs es => { st with chapters := st.chapters ++ cs,
                           events := st.events ++ es }
  | .noData => { st with skipped_batches := st.skipped_batches + 1 }
  | .error => { st with skipped_batches := st.skipped_batches + 1 }

/-- The whole batch loop. -/
def processBatches (st : ImportState) (bs : List BatchResult) : ImportState :=
  bs.foldl processBatch st

/-- Termination: `book.import_progress = 100; ...; book.status =
'drafting'; book.save()` — run both on normal completion (step 6) and by
the top-level `except` handler (whose best-effort re-fetch and save are
modelled as succeeding). -/
def finishImport (st : ImportState) : ImportState :=
  { st with status := "drafting", import_progress := 100 }

/-- The batches actually processed: all of them on a normal run, the first
`k` when an exception escapes to the top-level handler after `k` batches. -/
def processedBatches (batches : List BatchResult) (abort : Option Nat) :
    List BatchResult :=
  match abort with
  | none => batches
  | some k => batches.take k

/-- `run_background_book_import`, as a function of the per-batch outcomes
and an optional abort point. -/
def run_background_book_import (st : ImportState) (batches : List BatchResult)
    (abort : Option Nat) : ImportState :=
  finishImport (processBatches st (processedBatches batches abort))

/-- Chapters written by the successful batches, in order. -/
def okChapters : List BatchResult → List Nat
  | [] => []
  | .ok cs _ :: rest => cs ++ okChapters rest
  | .noData :: rest => okChapters rest
  | .error :: rest => okChapters rest

/-- Events written by the successful batches, in order. -/
def okEvents : List BatchResult → List Nat
  | [] => []
  | .ok _ es :: rest => es ++ okEvents rest
  | .noData :: rest => okEvents rest
  | .error :: rest => okEvents rest

/-- Number of batches that were skipped (no data or exception). -/
def skippedCount : List BatchResult → Nat
  | [] => 0
  | .ok _ _ :: rest => skippedCount rest
  | .noData :: rest => skippedCount rest + 1
  | .error :: rest => skippedCount rest + 1

theorem processBatches_spec (bs : List BatchResult) : ∀ st : ImportState,
    (processBatches st bs).status = st.status ∧
    (processBatches st bs).import_progress = st.import_progress ∧
    (processBatches st bs).characters = st.characters ∧
    (processBatches st bs).chapters = st.chapters ++ okChapters bs ∧
    (processBatches st bs).events = st.events ++ okEvents bs ∧
    (processBatches st bs).skipped_batches
      = st.skipped_batches + skippedCount bs := by
  induction bs with
  | nil => intro st; simp [processBatches, okChapters, okEvents, skippedCount]
  | cons b rest ih =>
    intro st
    have hstep : processBatches st (b :: rest)
        = processBatches (processBatch st b) rest := rfl
    rw [hstep]
    obtain ⟨h1, h2, h3, h4, h5, h6⟩ := ih (processBatch st b)
    cases b with
    | ok cs es =>
      refine ⟨h1, h2, h3, ?_, ?_, ?_⟩
      · rw [h4]
        simp [processBatch, okChapters, List.append_assoc]
      · rw [h5]
        simp [processBatch, okEvents, List.append_assoc]
      · rw [h6]
        simp [processBatch, skippedCount]
    | noData =>
      refine ⟨h1, h2, h3, ?_, ?_, ?_⟩
      · rw [h4]
        simp [processBatch, okChapters]
      · rw [h5]
        simp [processBatch, okEvents]
      · rw [h6]
        simp [processBatch, skippedCount]
        omega
    | error =>
      refine ⟨h1, h2, h3, ?_, ?_, ?_⟩
      · rw [h4]
        simp [processBatch, okChapters]
      · rw [h5]
        simp [processBatch, okEvents]
      · rw [h6]
        simp [processBatch, skippedCount]
        omega

/-- C4: an exception in one batch only increments `skipped_batches` and
processing continues with the remaining batches; on termination — normal
or via the top-level handler — `status = 'drafting'` and
`import_progress = 100`; and nothing written before the abort point is
rolled back: final rows are exactly the prior rows plus those of the
successfully processed batches. -/
theorem import_failure_policy (st : ImportState) (batches : List BatchResult)
    (abort : Option Nat) :
    (run_background_book_import st batches abort).status = "drafting" ∧
    (run_background_book_import st batches abort).import_progress = 100 ∧
    (∀ (st2 : ImportState) (rest : List BatchResult),
      processBatches st2 (BatchResult.error :: rest)
        = processBatches
            { st2 with skipped_batches := st2.skipped_batches + 1 } rest) ∧
    (run_background_book_import st batches abort).characters
      = st.characters ∧
    (run_background_book_import st batches abort).chapters
      = st.chapters ++ okChapters (processedBatches batches abort) ∧
    (run_background_book_import st batches abort).events
      = st.events ++ okEvents (processedBatches batches abort) ∧
    (run_background_book_import st batches abort).skipped_batches
      = st.skipped_batches + skippedCount (processedBatches batches abort) := by
  obtain ⟨h1, h2, h3, h4, h5, h6⟩ :=
    processBatches_spec (processedBatches batches abort) st
  exact ⟨by simp [run_background_book_import, finishImport],
         by simp [run_background_book_import, finishImport],
         fun st2 rest => rfl,
         by simp [run_background_book_import, finishImport]; exact h3,
         by simp [run_background_book_import, finishImport]; exact h4,
         by simp [run_background_book_import, finishImport]; exact h5,
         by simp [run_background_book_import, finishImport]; exact h6⟩

/-! ## C6: the two-tier cache key of `api_suggest_relationship` (views.py) -/

/-- The character metadata read for cache invalidation. -/
structure CharProfile where
  id : Nat
  traits : String
  motivation : String
  role : String
deriving DecidableEq, Repr

/-- `char_a_data = f"{char_a.traits}|{char_a.motivation}|{char_a.role}"` —
the string that is sha256-hashed. -/
def serializeMeta (c : CharProfile) : String :=
  c.traits ++ "|" ++ c.motivation ++ "|" ++ c.role

/-- An `Event` as read by the relationship analysis. Empty strings model
falsy (`None`/empty) `content_json`/`content_html`/`description`. -/
structure RelEvent where
  id : Nat
  title : String
  content_json : String
  content_html : String
  description : String
deriving DecidableEq, Repr

/-- Python `a or b or c or ""` over strings. -/
def pyOrStr (a b c : String) : String :=
  if a ≠ "" then a else if b ≠ "" then b else c

/-- `content = event.content_json or event.content_html or
event.description or ""`. -/
def eventContent (e : RelEvent) : String :=
  pyOrStr e.content_json e.content_html e.description

/-- `batch_content += f"{event.id}:{str(content)}|"` over a batch. -/
def batchContent (batch : List RelEvent) : String :=
  batch.foldl (fun acc e =>
    acc ++ toString e.id ++ ":" ++ eventContent e ++ "|") ""

/-- `snapshots_hash = "|".join(sha256(batch_content) for each batch)`,
with the batches produced by `relationshipBatches`. `hashFn` is the
uninterpreted sha256 hex digest. -/
def snapshotsHash (hashFn : String → String) (events : List RelEvent) :
    String :=
  String.intercalate "|"
    ((relationshipBatches events).map (fun b => hashFn (batchContent b)))

/-- A `RelationshipAnalysisCache` row, fields as filtered and written in
views.py (the model class itself is not under src/). -/
structure CacheEntry where
  character_a : Nat
  character_b : Nat
  char_a_metadata_hash : String
  char_b_metadata_hash : String
  interaction_snapshots_hash : String
  full_json : String
deriving DecidableEq, Repr

/-- The `RelationshipAnalysisCache.objects.filter(...)` condition. -/
def cacheMatches (aId bId : Nat) (h_a h_b sh : String) (e : CacheEntry) :
    Bool :=
  decide (e.character_a = aId) && decide (e.character_b = bId)
    && decide (e.char_a_metadata_hash = h_a)
    && decide (e.char_b_metadata_hash = h_b)
    && decide (e.interaction_snapshots_hash = sh)

/-- The responses `api_suggest_relationship` can give past input
validation: the no-shared-scenes neutral stub, a cache hit returning the
stored `full_json`, or a fresh three-pass synthesis. -/
inductive SuggestResponse where
  | neutralNoScenes
  | cached (full_json : String)
  | fresh
deriving DecidableEq, Repr

/-- The cache-consultation path of `api_suggest_relationship`: neutral
stub when there are no shared events, else a hit exactly on the first
cache row matching the pair and all three freshly computed hashes. -/
def api_suggest_relationship (hashFn : String → String)
    (cache : List CacheEntry) (char_a char_b : CharProfile)
    (shared_events : List RelEvent) : SuggestResponse :=
  if shared_events = [] then .neutralNoScenes
  else
    match cache.find? (cacheMatches char_a.id char_b.id
        (hashFn (serializeMeta char_a)) (hashFn (serializeMeta char_b))
        (snapshotsHash hashFn shared_events)) with
    | some entry => .cached entry.full_json
    | none => .fresh

/-- C6 (amended): with shared events present, the endpoint returns a
cached analysis iff some cache row matches the pair and all three fresh
hashes; and the cache key depends on the characters only through the
`'|'`-joined serialization strings, so metadata changes that preserve the
serialization hit the same cache rows. -/
theorem api_suggest_cache_spec (hashFn : String → String)
    (cache : List CacheEntry) (a b : CharProfile) (events : List RelEvent)
    (hne : events ≠ []) :
    ((∃ j, api_suggest_relationship hashFn cache a b events
        = SuggestResponse.cached j) ↔
      ∃ e ∈ cache, e.character_a = a.id ∧ e.character_b = b.id ∧
        e.char_a_metadata_hash = hashFn (serializeMeta a) ∧
        e.char_b_metadata_hash = hashFn (serializeMeta b) ∧
        e.interaction_snapshots_hash = snapshotsHash hashFn events) ∧
    (∀ a2 : CharProfile, a2.id = a.id → serializeMeta a2 = serializeMeta a →
      api_suggest_relationship hashFn cache a2 b events
        = api_suggest_relationship hashFn cache a b events) := by
  constructor
  · unfold api_suggest_relationship
    rw [if_neg hne]
    cases hf : cache.find? (cacheMatches a.id b.id
        (hashFn (serializeMeta a)) (hashFn (serializeMeta b))
        (snapshotsHash hashFn events)) with
    | some entry =>
      constructor
      · intro _
        have hmem := List.mem_of_find?_eq_some hf
        have hp := List.find?_some hf
        unfold cacheMatches at hp
        simp only [Bool.and_eq_true, decide_eq_true_eq] at hp
        exact ⟨entry, hmem, hp.1.1.1.1, hp.1.1.1.2, hp.1.1.2, hp.1.2, hp.2⟩
      · intro _
        exact ⟨entry.full_json, rfl⟩
    | none =>
      constructor
      · rintro ⟨j, hj⟩
        exact absurd hj (by simp)
      · rintro ⟨e, hmem, h1, h2, h3, h4, h5⟩
        have hall := List.find?_eq_none.mp hf e hmem
        unfold cacheMatches at hall
        simp only [Bool.and_eq_true, decide_eq_true_eq] at hall
        exact absurd ⟨⟨⟨⟨h1, h2⟩, h3⟩, h4⟩, h5⟩ hall
  · intro a2 hid hser
    unfold api_suggest_relationship
    rw [hid, hser]

/-- C6 witness: the theorem applied at a concrete one-event, one-row
scenario (with the hex digest abstracted as the identity function): the
matching row is returned as a cache hit. -/
theorem api_suggest_cache_spec_witness :
    ∃ j, api_suggest_relationship id
        [{ character_a := 1, character_b := 2,
           char_a_metadata_hash := id (serializeMeta
             { id := 1, traits := "t", motivation := "m", role := "r" }),
           char_b_metadata_hash := id (serializeMeta
             { id := 2, traits := "u", motivation := "n", role := "s" }),
           interaction_snapshots_hash := snapshotsHash id
             [{ id := 7, title := "T", content_json := "c",
                content_html := "", description := "" }],
           full_json := "J" }]
        { id := 1, traits := "t", motivation := "m", role := "r" }
        { id := 2, traits := "u", motivation := "n", role := "s" }
        [{ id := 7, title := "T", content_json := "c",
           content_html := "", description := "" }]
      = SuggestResponse.cached j := by
  apply ((api_suggest_cache_spec id _ _ _ _ (by simp)).1).mpr
  exact ⟨_, List.mem_singleton_self _, rfl, rfl, rfl, rfl, rfl⟩

/-- C6 counterexample: the claim says any change to traits or motivation
changes the metadata hash, but the `'|'`-joined serialization is not
injective: these two distinct profiles serialize — and therefore hash —
identically, so the change hits the cache. -/
theorem relationship_metadata_hash_collision :
    serializeMeta { id := 1, traits := "a|b", motivation := "", role := "r" }
      = serializeMeta { id := 1, traits := "a", motivation := "b|", role := "r" }
    ∧ ({ id := 1, traits := "a|b", motivation := "", role := "r" } : CharProfile)
      ≠ { id := 1, traits := "a", motivation := "b|", role := "r" } := by
  constructor
  · rfl
  · intro h
    have := congrArg CharProfile.motivation h
    simp at this

/-! ## C7: character deduplication in `run_background_book_import` (views.py) -/

/-- Python `s[:n]`. -/
def pyTake (s : String) (n : Nat) : String := ⟨s.toList.take n⟩

/-- The `Character` fields the import character pass reads and writes. -/
structure DbChar where
  id : Nat
  name : String
  nickname : String
  aliases : String
  role : String
  description : String
  motivation : String
  goals : String
  traits : String
  introduction_book : Option Nat
  introduction_chapter : Option Nat
deriving DecidableEq, Repr

/-- One character record in the LLM response. `name = ""` models a
missing/falsy name (the record is skipped); string fields model
`char_info.get(key, '')`, `role` the result of `get('role', 'supporting')`. -/
structure AiCharInfo where
  name : String
  aliases : List String
  role : String
  description : String
  motivation : String
  goals : String
  traits : String
  first_chapter : Option Nat
deriving DecidableEq, Repr

/-- The pre-pass `char_map`: for every existing character of the user,
`name.lower()`, `nickname.lower()` when set, and each non-empty
`alias.strip().lower()` from the comma-separated aliases. -/
def buildImportCharMap (chars : List DbChar) : List (String × Nat) :=
  chars.foldl (fun m c =>
    let m := dset m (pyLower c.name) c.id
    let m := if c.nickname ≠ "" then dset m (pyLower c.nickname) c.id else m
    if c.aliases ≠ "" then
      (pySplitComma c.aliases).foldl (fun m al =>
        if pyLower (pyStrip al) ≠ "" then dset m (pyLower (pyStrip al)) c.id
        else m) m
    else m) []

/-- `existing = char_map.get(name.lower())`, then, if that failed and the
AI provided aliases, the first hit of `char_map.get(ai_alias.lower().strip())`. -/
def findExisting (m : List (String × Nat)) (info : AiCharInfo) : Option Nat :=
  match dlookup m (pyLower info.name) with
  | some cid => some cid
  | none =>
    if info.aliases ≠ [] then
      info.aliases.findSome? (fun al => dlookup m (pyStrip (pyLower al)))
    else none

/-- The alias merge of the update branch: the existing aliases
(stripped, lower-cased, empties dropped) plus the AI aliases
(stripped, lower-cased), minus the primary name, sorted and re-joined —
run only when the AI provided aliases and the merged set is non-empty. -/
def mergedAliases (info : AiCharInfo) (c : DbChar) : String :=
  if info.aliases ≠ [] then
    let fromOld := (pySplitComma c.aliases).filterMap
      (fun a => if pyStrip a = "" then none else some (pyLower (pyStrip a)))
    let withNew := fromOld ++ info.aliases.map (fun a => pyLower (pyStrip a))
    let current := withNew.filter (fun x => x ≠ pyLower c.name)
    if current ≠ [] then String.intercalate ", " (sortDedup current)
    else c.aliases
  else c.aliases

/-- The update branch: fill description/motivation/goals/traits only when
empty, set the introduction book/chapter only when unset, and merge the
AI aliases into the aliases field. `chapterLookup n` models
`book.chapters.filter(chapter_number=n).first()`. -/
def fillExisting (book : Nat) (chapterLookup : Nat → Option Nat)
    (info : AiCharInfo) (c : DbChar) : DbChar :=
  { c with
    description :=
      if c.description = "" ∧ info.description ≠ "" then info.description
      else c.description
    motivation :=
      if c.motivation = "" ∧ info.motivation ≠ "" then info.motivation
      else c.motivation
    goals := if c.goals = "" ∧ info.goals ≠ "" then info.goals else c.goals
    traits :=
      if c.traits = "" ∧ info.traits ≠ "" then info.traits else c.traits
    introduction_book :=
      if c.introduction_book = none then some book else c.introduction_book
    introduction_chapter :=
      if c.introduction_book = none then
        match info.first_chapter with
        | some n =>
          if n ≠ 0 then
            match chapterLookup n with
            | some ch => some ch
            | none => c.introduction_chapter
          else c.introduction_chapter
        | none => c.introduction_chapter
      else c.introduction_chapter
    aliases := mergedAliases info c }

/-- The create branch: `Character.objects.create(...)` with the raw
comma-joined AI aliases, the role truncated to 100 characters, and the
introduction set to this book. -/
def mkNewChar (book : Nat) (chapterLookup : Nat → Option Nat) (cid : Nat)
    (info : AiCharInfo) : DbChar :=
  { id := cid
    name := info.name
    nickname := ""
    aliases :=
      if info.aliases ≠ [] then String.intercalate ", " info.aliases else ""
    role := pyTake info.role 100
    description := info.description
    motivation := info.motivation
    goals := info.goals
    traits := info.traits
    introduction_book := some book
    introduction_chapter :=
      match info.first_chapter with
      | some n => if n ≠ 0 then chapterLookup n else none
      | none => none }

/-- `chars.map`, touching only the row with the given id. -/
def updateChar (chars : List DbChar) (cid : Nat) (f : DbChar → DbChar) :
    List DbChar :=
  chars.map (fun c => if c.id = cid then f c else c)

/-- The state threaded through the character pass: `char_map`, all
character rows, the next fresh row id, and the ids created by the pass. -/
structure CharPassState where
  map : List (String × Nat)
  chars : List DbChar
  nextId : Nat
  created : List Nat
deriving DecidableEq, Repr

/-- One `for char_info in char_data.get('characters', [])` iteration:
skip falsy names; on a map hit update the existing character and register
the AI name; otherwise create a new character and register its name and
aliases. -/
def stepChar (book : Nat) (chapterLookup : Nat → Option Nat)
    (st : CharPassState) (info : AiCharInfo) : CharPassState :=
  if info.name = "" then st
  else
    match findExisting st.map info with
    | some cid =>
      { st with
        chars := updateChar st.chars cid (fillExisting book chapterLookup info)
        map := dset st.map (pyLower info.name) cid }
    | none =>
      { map := info.aliases.foldl
          (fun m a => dset m (pyLower (pyStrip a)) st.nextId)
          (dset st.map (pyLower info.name) st.nextId)
        chars := st.chars ++ [mkNewChar book chapterLookup st.nextId info]
        nextId := st.nextId + 1
        created := st.created ++ [st.nextId] }

/-- The whole character pass over the LLM records. -/
def runCharPass (book : Nat) (chapterLookup : Nat → Option Nat)
    (st : CharPassState) (infos : List AiCharInfo) : CharPassState :=
  infos.foldl (stepChar book chapterLookup) st

/-- The state at the start of the pass: map built from the user's
existing characters, no rows created yet. -/
def initCharPassState (chars : List DbChar) (nextId : Nat) : CharPassState :=
  { map := buildImportCharMap chars, chars := chars, nextId := nextId,
    created := [] }

/-- The claim's matching condition: the AI name, or one of the AI
aliases, hits a registered key (an existing name, nickname or alias). -/
def matchesMap (m : List (String × Nat)) (info : AiCharInfo) : Prop :=
  dlookup m (pyLower info.name) ≠ none ∨
    ∃ al ∈ info.aliases, dlookup m (pyStrip (pyLower al)) ≠ none

/-- What the update branch guarantees for the touched row: identity and
role/name/nickname unchanged, description/motivation/goals/traits changed
only when previously empty, introduction fields only when unset. (The
aliases field is exempt: it is rewritten by the merge.) -/
def fillPreserves (c cNew : DbChar) : Prop :=
  cNew.id = c.id ∧ cNew.name = c.name ∧ cNew.nickname = c.nickname ∧
  cNew.role = c.role ∧
  (c.description ≠ "" → cNew.description = c.description) ∧
  (c.motivation ≠ "" → cNew.motivation = c.motivation) ∧
  (c.goals ≠ "" → cNew.goals = c.goals) ∧
  (c.traits ≠ "" → cNew.traits = c.traits) ∧
  (c.introduction_book ≠ none →
    cNew.introduction_book = c.introduction_book ∧
    cNew.introduction_chapter = c.introduction_chapter)

theorem dlookup_dset (m : List (String × α)) (k2 : String) (v : α)
    (k : String) :
    dlookup (dset m k2 v) k = if k = k2 then some v else dlookup m k := by
  induction m with
  | nil =>
    by_cases hk : k = k2
    · simp [dlookup, dset, hk]
    · simp [dlookup, dset, hk, Ne.symm hk]
  | cons a m ih =>
    unfold dset at ih ⊢
    rw [List.filter_cons]
    by_cases ha2 : a.1 = k2
    · rw [if_neg (by simp [ha2])]
      rw [ih]
      by_cases hk : k = k2
      · simp [hk]
      · rw [if_neg hk, if_neg hk]
        unfold dlookup
        rw [List.find?_cons_of_neg _
          (by simp only [decide_eq_true_eq]; exact fun h => hk (h ▸ ha2 ▸ rfl))]
    · rw [if_pos (by simp [ha2])]
      by_cases hak : a.1 = k
      · have hk : k ≠ k2 := fun h => ha2 (by rw [hak, h])
        rw [if_neg hk]
        unfold dlookup
        rw [List.cons_append]
        rw [List.find?_cons_of_pos _ (by simp [hak]),
          List.find?_cons_of_pos _ (by simp [hak])]
      · unfold dlookup at ih ⊢
        rw [List.cons_append]
        rw [List.find?_cons_of_neg _ (by simp [hak]),
          List.find?_cons_of_neg _ (by simp [hak])]
        exact ih

theorem dlookup_dset_ne_none {m : List (String × α)} {k : String}
    (k2 : String) (v : α) (h : dlookup m k ≠ none) :
    dlookup (dset m k2 v) k ≠ none := by
  rw [dlookup_dset]
  split
  · simp
  · exact h

theorem dlookup_foldl_dset_ne_none {k : String} (g : β → String) (cid : α) :
    ∀ (l : List β) (m : List (String × α)), dlookup m k ≠ none →
      dlookup (l.foldl (fun m a => dset m (g a) cid) m) k ≠ none := by
  intro l
  induction l with
  | nil => exact fun m h => h
  | cons b l ih =>
    intro m h
    rw [List.foldl_cons]
    exact ih (dset m (g b) cid) (dlookup_dset_ne_none (g b) cid h)

theorem findExisting_ne_none_iff (m : List (String × Nat))
    (info : AiCharInfo) :
    findExisting m info ≠ none ↔ matchesMap m info := by
  unfold findExisting matchesMap
  cases hn : dlookup m (pyLower info.name) with
  | some cid => simp
  | none =>
    by_cases hal : info.aliases = []
    · rw [if_neg (not_not.mpr hal), hal]
      simp
    · rw [if_pos hal]
      rw [ne_eq, List.findSome?_eq_none_iff]
      constructor
      · intro hne
        push_neg at hne
        exact Or.inr hne
      · rintro (hcon | ⟨al, hmem, hne⟩)
        · exact absurd rfl hcon
        · intro hall
          exact hne (hall al hmem)

theorem stepChar_map_mono (book : Nat) (cl : Nat → Option Nat)
    (st : CharPassState) (info : AiCharInfo) (k : String)
    (h : dlookup st.map k ≠ none) :
    dlookup (stepChar book cl st info).map k ≠ none := by
  unfold stepChar
  by_cases hname : info.name = ""
  · rw [if_pos hname]
    exact h
  · rw [if_neg hname]
    cases hf : findExisting st.map info with
    | some cid =>
      exact dlookup_dset_ne_none _ _ h
    | none =>
      exact dlookup_foldl_dset_ne_none _ _ info.aliases _
        (dlookup_dset_ne_none _ _ h)

theorem stepChar_match_spec (book : Nat) (cl : Nat → Option Nat)
    (st : CharPassState) (info : AiCharInfo) (h : matchesMap st.map info) :
    (stepChar book cl st info).created = st.created ∧
    (stepChar book cl st info).nextId = st.nextId ∧
    (stepChar book cl st info).chars.length = st.chars.length ∧
    (info.name ≠ "" → ∃ cid, findExisting st.map info = some cid ∧
      stepChar book cl st info = { st with
        chars := updateChar st.chars cid (fillExisting book cl info)
        map := dset st.map (pyLower info.name) cid }) := by
  have hfe : findExisting st.map info ≠ none :=
    (findExisting_ne_none_iff _ _).mpr h
  unfold stepChar
  by_cases hname : info.name = ""
  · rw [if_pos hname]
    exact ⟨rfl, rfl, rfl, fun hcon => absurd hname hcon⟩
  · rw [if_neg hname]
    cases hf : findExisting st.map info with
    | none => exact absurd hf hfe
    | some cid =>
      refine ⟨rfl, rfl, ?_, fun _ => ⟨cid, rfl, rfl⟩⟩
      show (updateChar st.chars cid (fillExisting book cl info)).length
        = st.chars.length
      unfold updateChar
      exact List.length_map _ _

theorem fillExisting_preserves (book : Nat) (cl : Nat → Option Nat)
    (info : AiCharInfo) (c : DbChar) :
    fillPreserves c (fillExisting book cl info c) := by
  unfold fillPreserves fillExisting
  refine ⟨rfl, rfl, rfl, rfl, ?_, ?_, ?_, ?_, ?_⟩
  · intro hd
    show (if c.description = "" ∧ info.description ≠ "" then info.description
          else c.description) = c.description
    rw [if_neg (by simp [hd])]
  · intro hm
    show (if c.motivation = "" ∧ info.motivation ≠ "" then info.motivation
          else c.motivation) = c.motivation
    rw [if_neg (by simp [hm])]
  · intro hg
    show (if c.goals = "" ∧ info.goals ≠ "" then info.goals else c.goals)
      = c.goals
    rw [if_neg (by simp [hg])]
  · intro ht
    show (if c.traits = "" ∧ info.traits ≠ "" then info.traits else c.traits)
      = c.traits
    rw [if_neg (by simp [ht])]
  · intro hb
    constructor
    · show (if c.introduction_book = none then some book
            else c.introduction_book) = c.introduction_book
      rw [if_neg hb]
    · show (if c.introduction_book = none then
              match info.first_chapter with
              | some n =>
                if n ≠ 0 then
                  match cl n with
                  | some ch => some ch
                  | none => c.introduction_chapter
                else c.introduction_chapter
              | none => c.introduction_chapter
            else c.introduction_chapter) = c.introduction_chapter
      rw [if_neg hb]

theorem runCharPass_map_mono (book : Nat) (cl : Nat → Option Nat)
    (infos : List AiCharInfo) :
    ∀ (st : CharPassState) (k : String), dlookup st.map k ≠ none →
      dlookup (runCharPass book cl st infos).map k ≠ none := by
  induction infos with
  | nil => exact fun st k h => h
  | cons info rest ih =>
    intro st k h
    rw [show runCharPass book cl st (info :: rest)
          = runCharPass book cl (stepChar book cl st info) rest from rfl]
    exact ih _ k (stepChar_map_mono book cl st info k h)

theorem matchesMap_mono (book : Nat) (cl : Nat → Option Nat)
    (infos : List AiCharInfo) (st : CharPassState) (info : AiCharInfo)
    (h : matchesMap st.map info) :
    matchesMap (runCharPass book cl st infos).map info := by
  rcases h with h | ⟨al, hmem, hne⟩
  · exact Or.inl (runCharPass_map_mono book cl infos st _ h)
  · exact Or.inr ⟨al, hmem, runCharPass_map_mono book cl infos st _ hne⟩

theorem runCharPass_take_succ (book : Nat) (cl : Nat → Option Nat)
    (st : CharPassState) (infos : List AiCharInfo) (i : Nat)
    (hi : i < infos.length) :
    runCharPass book cl st (infos.take (i + 1))
      = stepChar book cl (runCharPass book cl st (infos.take i))
          (infos.get ⟨i, hi⟩) := by
  rw [List.take_succ, List.getElem?_eq_getElem hi]
  unfold runCharPass
  rw [show (some infos[i]).toList = [infos[i]] from rfl, List.foldl_append,
    List.foldl_cons, List.foldl_nil]
  rfl

/-- C7 (amended): a record of the LLM character response whose name (or
one of whose AI aliases) matches, case-insensitively, a registered key of
the pre-pass map — an existing character's name, nickname or comma-split
alias — never creates a new Character row: its step keeps the created-ids
and the row count unchanged and only updates the matched row, filling
description/motivation/goals/traits only when empty and the introduction
fields only when unset; the aliases field, however, is merged (and thereby
rewritten lower-cased and sorted even when non-empty). -/
theorem import_character_pass_spec (book : Nat) (cl : Nat → Option Nat)
    (dbChars : List DbChar) (nextId : Nat) (infos : List AiCharInfo)
    (i : Nat) (hi : i < infos.length)
    (hmatch : matchesMap (buildImportCharMap dbChars) (infos.get ⟨i, hi⟩)) :
    (runCharPass book cl (initCharPassState dbChars nextId)
        (infos.take (i + 1))).created
      = (runCharPass book cl (initCharPassState dbChars nextId)
          (infos.take i)).created ∧
    (runCharPass book cl (initCharPassState dbChars nextId)
        (infos.take (i + 1))).chars.length
      = (runCharPass book cl (initCharPassState dbChars nextId)
          (infos.take i)).chars.length ∧
    ((infos.get ⟨i, hi⟩).name ≠ "" → ∃ cid,
      findExisting (runCharPass book cl (initCharPassState dbChars nextId)
          (infos.take i)).map (infos.get ⟨i, hi⟩) = some cid ∧
      (runCharPass book cl (initCharPassState dbChars nextId)
          (infos.take (i + 1))).chars
        = updateChar (runCharPass book cl (initCharPassState dbChars nextId)
              (infos.take i)).chars cid
            (fillExisting book cl (infos.get ⟨i, hi⟩))) ∧
    (∀ c : DbChar, fillPreserves c (fillExisting book cl
        (infos.get ⟨i, hi⟩) c)) := by
  have hm2 : matchesMap (runCharPass book cl (initCharPassState dbChars nextId)
      (infos.take i)).map (infos.get ⟨i, hi⟩) :=
    matchesMap_mono book cl (infos.take i) _ _ hmatch
  obtain ⟨h1, h2, h3, h4⟩ := stepChar_match_spec book cl _ _ hm2
  rw [runCharPass_take_succ book cl _ infos i hi]
  refine ⟨h1, h3, ?_, fun c => fillExisting_preserves book cl _ c⟩
  intro hname
  obtain ⟨cid, hcid, hstep⟩ := h4 hname
  exact ⟨cid, hcid, by rw [hstep]⟩

/-- The concrete existing character used by the C7 witness and the C7
counterexample: non-empty aliases "Rex". -/
def bobChar : DbChar :=
  { id := 0, name := "Bob", nickname := "", aliases := "Rex", role := "minor"
    description := "d", motivation := "m", goals := "g", traits := "t"
    introduction_book := some 1, introduction_chapter := none }

/-- A concrete LLM record matching `bobChar` by name and contributing a
new alias "Zed". -/
def bobInfo : AiCharInfo :=
  { name := "Bob", aliases := ["Zed"], role := "supporting"
    description := "x", motivation := "", goals := "", traits := ""
    first_chapter := none }

/-- C7 witness: the theorem at the concrete matching record — no row is
created. -/
theorem import_character_pass_spec_witness :
    (runCharPass 1 (fun _ => none) (initCharPassState [bobChar] 1)
        ([bobInfo].take 1)).created
      = (runCharPass 1 (fun _ => none) (initCharPassState [bobChar] 1)
          ([bobInfo].take 0)).created :=
  (import_character_pass_spec 1 (fun _ => none) [bobChar] 1 [bobInfo] 0
      (by decide) (by unfold matchesMap; decide)).1

/-- C7 counterexample: the claim says the matched existing character has
only its empty fields filled, but the alias merge rewrites the non-empty
aliases field "Rex" to "rex, zed" (while indeed creating no row). -/
theorem import_character_pass_alias_rewrite :
    bobChar.aliases = "Rex" ∧
    (stepChar 1 (fun _ => none) (initCharPassState [bobChar] 1)
        bobInfo).created = [] ∧
    (stepChar 1 (fun _ => none) (initCharPassState [bobChar] 1)
        bobInfo).chars.map DbChar.aliases = ["rex, zed"] ∧
    ("rex, zed" : String) ≠ "Rex" := by
  refine ⟨rfl, rfl, ?_, by decide⟩
  decide
